import Mathlib

/-!
Shallow embedding of the rubEns drawing core: pixel buffers, the mouse
coordinate mapping of `Canvas`, the rasterization and color primitives,
the ellipse and free-hand drawing tools and the inverse-color effect.

Pure data is embedded directly; the stateful tool objects become explicit
state records with one Lean function per event handler, and the
`getImageData` / `setImageData` round trip of the canvas becomes ordinary
function application on the buffer value.
-/

namespace RubEns

/-- One RGBA pixel; each channel is an 8-bit value. -/
structure RGBA where
  r : Fin 256
  g : Fin 256
  b : Fin 256
  a : Fin 256
deriving DecidableEq

/-- The pure black stroke color (0, 0, 0, 255). -/
def RGBA.black : RGBA := ⟨0, 0, 0, 255⟩

/-- The fully transparent pixel (0, 0, 0, 0) produced by clearing a canvas. -/
def RGBA.transparent : RGBA := ⟨0, 0, 0, 0⟩

/-- The pixel matrix of a canvas (`ImageData`): a width × height grid of RGBA
values stored row-major with origin at the top left. -/
structure ImageData where
  width : Nat
  height : Nat
  data : List RGBA
deriving DecidableEq

/-- Well-formed buffer: the data list holds exactly `width * height` pixels. -/
def ImageData.Wf (img : ImageData) : Prop :=
  img.data.length = img.width * img.height

instance (img : ImageData) : Decidable img.Wf :=
  inferInstanceAs (Decidable (img.data.length = img.width * img.height))

/-- A 2D point with real (here rational) coordinates, as `utils/Point`. -/
structure Point where
  x : ℚ
  y : ℚ
deriving DecidableEq

/-- A point whose coordinates have been floored to device-pixel integers. -/
structure PixPoint where
  x : ℤ
  y : ℤ
deriving DecidableEq

/-- `Math.floor` applied to both coordinates of a point, as every tool handler
does right after calling `getMouseEventCoordinates`. -/
def floorPoint (p : Point) : PixPoint := ⟨p.x.floor, p.y.floor⟩

/-- Whether a device-pixel coordinate lies inside the buffer. -/
def ImageData.inBounds (img : ImageData) (p : PixPoint) : Prop :=
  0 ≤ p.x ∧ p.x < img.width ∧ 0 ≤ p.y ∧ p.y < img.height

instance (img : ImageData) (p : PixPoint) : Decidable (img.inBounds p) :=
  inferInstanceAs (Decidable (0 ≤ p.x ∧ p.x < img.width ∧ 0 ≤ p.y ∧ p.y < img.height))

/-- Row-major flat index of an in-bounds pixel coordinate. -/
def ImageData.idx (img : ImageData) (p : PixPoint) : Nat :=
  p.y.toNat * img.width + p.x.toNat

/-- Read one pixel; `none` when the coordinate is out of bounds. -/
def ImageData.getPixel (img : ImageData) (p : PixPoint) : Option RGBA :=
  if img.inBounds p then img.data[img.idx p]? else none

/-- Write one pixel; out-of-bounds writes are silently dropped, as writes
through an `ImageData` view of a canvas are. -/
def ImageData.setPixel (img : ImageData) (p : PixPoint) (c : RGBA) : ImageData :=
  if img.inBounds p then { img with data := img.data.set (img.idx p) c } else img

/-- `Canvas.clear`: set every RGBA pixel of the buffer to (0, 0, 0, 0). -/
def Canvas.clear (img : ImageData) : ImageData :=
  { img with data := img.data.map fun _ => RGBA.transparent }

/-- The bounding client rectangle of the rendered canvas element (CSS size). -/
structure ClientRect where
  left : ℚ
  top : ℚ
  right : ℚ
  bottom : ℚ
deriving DecidableEq

/-- The client-space position carried by a mouse event. -/
structure MouseEvent where
  clientX : ℚ
  clientY : ℚ
deriving DecidableEq

/-- The geometry a `Canvas` uses to map mouse events: its cached bounding
client rectangle and the backing pixel dimensions `canvas.width` /
`canvas.height` of its HTML node. -/
structure CanvasGeometry where
  boundingRect : ClientRect
  width : ℚ
  height : ℚ
deriving DecidableEq

/-- `Canvas.getMouseEventCoordinates`: takes the client offset of the event
relative to the bounding rectangle, then multiplies each coordinate by the
ratio of the rectangle's CSS extent to the backing pixel dimension, exactly as
the source does. -/
def Canvas.getMouseEventCoordinates (geom : CanvasGeometry) (event : MouseEvent) : Point :=
  let boundingRect := geom.boundingRect
  let mouseX := event.clientX - boundingRect.left
  let mouseY := event.clientY - boundingRect.top
  { x := mouseX * ((boundingRect.right - boundingRect.left) / geom.width),
    y := mouseY * ((boundingRect.bottom - boundingRect.top) / geom.height) }

/-- Rounded linear interpolation step: the nearest integer to `i * d / n`
(for `n > 0`), computed as `⌊(2 * i * d + n) / (2 * n)⌋` over naturals. -/
def lineInterp (d n i : Nat) : Nat := (2 * i * d + n) / (2 * n)

/-- Modelled from the spec: the pixel trace of the line primitive
(`DrawingPrimitives/Line.ts` is not under `src/`). A Bresenham-class,
bidirectional, single-pixel-wide stepping: over `n = max |dx| |dy|` steps each
axis advances by the nearest-integer approximation of the true line, so the
deviation stays below one pixel, both endpoints are visited, and the
degenerate case `p0 = p1` yields the single pixel `p0`. -/
def bresenhamPoints (p0 p1 : PixPoint) : List PixPoint :=
  let dx := (p1.x - p0.x).natAbs
  let dy := (p1.y - p0.y).natAbs
  let n := max dx dy
  if n = 0 then [p0]
  else (List.range (n + 1)).map fun i =>
    ⟨p0.x + (p1.x - p0.x).sign * lineInterp dx n i,
     p0.y + (p1.y - p0.y).sign * lineInterp dy n i⟩

/-- Paint a list of pixels onto a buffer, coloring each visited pixel with
`colorFn`, in visiting order. -/
def paintPoints (colorFn : PixPoint → RGBA) (img : ImageData) (pts : List PixPoint) : ImageData :=
  pts.foldl (fun b q => b.setPixel q (colorFn q)) img

/-- Modelled from the spec: `Line.paintItBlack`, the default color callback
that paints every visited pixel pure black. -/
def Line.paintItBlack : PixPoint → RGBA := fun _ => RGBA.black

/-- Modelled from the spec: `Line.draw(buffer, p0, p1, colorFn)` rasterizes
the segment between two integer pixel points, invoking `colorFn` once per
visited pixel (`DrawingPrimitives/Line.ts` is not under `src/`). -/
def Line.draw (img : ImageData) (p0 p1 : PixPoint) (colorFn : PixPoint → RGBA) : ImageData :=
  paintPoints colorFn img (bresenhamPoints p0 p1)

/-- Integer square root (the largest `s` with `s * s ≤ k`), by bounded search. -/
def isqrt (k : Nat) : Nat :=
  ((List.range (k + 1)).filter fun s => s * s ≤ k).length - 1

/-- Nearest integer to the square root of a natural number. -/
def isqrtRound (k : Nat) : Nat :=
  let s := isqrt k
  if s * s + s < k then s + 1 else s

/-- Nearest integer to `a / b` for a positive divisor `b`. -/
def roundDivInt (a b : Int) : Int := (2 * a + b).fdiv (2 * b)

/-- Modelled from the spec: the outline pixels of
`Ellipse.drawFromBoundingRect` (`DrawingPrimitives/Ellipse.ts` is not under
`src/`). The two corners are normalized to min/max per axis; a degenerate
rectangle collapses to a line or a point; otherwise the outline of the
inscribed axis-aligned ellipse is selected by nearest-integer approximation to
the analytic boundary, scanning the columns and the rows (the four-quadrant
symmetric traversal), with half-integer centers handled by doubled
coordinates. -/
def ellipseOutlinePoints (p0 p1 : PixPoint) : List PixPoint :=
  let xmin := min p0.x p1.x
  let xmax := max p0.x p1.x
  let ymin := min p0.y p1.y
  let ymax := max p0.y p1.y
  if xmin = xmax ∨ ymin = ymax then bresenhamPoints ⟨xmin, ymin⟩ ⟨xmax, ymax⟩
  else
    let a2 := xmax - xmin
    let b2 := ymax - ymin
    let cx2 := xmin + xmax
    let cy2 := ymin + ymax
    let colPts := (List.range (a2.toNat + 1)).flatMap fun i =>
      let x := xmin + i
      let dx2 := 2 * x - cx2
      let s := (isqrtRound ((b2 * b2 * (a2 * a2 - dx2 * dx2)).toNat) : Int)
      [⟨x, roundDivInt (cy2 * a2 - s) (2 * a2)⟩, ⟨x, roundDivInt (cy2 * a2 + s) (2 * a2)⟩]
    let rowPts := (List.range (b2.toNat + 1)).flatMap fun j =>
      let y := ymin + j
      let dy2 := 2 * y - cy2
      let s := (isqrtRound ((a2 * a2 * (b2 * b2 - dy2 * dy2)).toNat) : Int)
      [⟨roundDivInt (cx2 * b2 - s) (2 * b2), y⟩, ⟨roundDivInt (cx2 * b2 + s) (2 * b2), y⟩]
    colPts ++ rowPts

/-- Modelled from the spec: `Ellipse.drawFromBoundingRect(p0, p1, buffer)`
paints the outline of the ellipse inscribed in the rectangle spanned by the
two corners (`DrawingPrimitives/Ellipse.ts` is not under `src/`). -/
def Ellipse.drawFromBoundingRect (p0 p1 : PixPoint) (img : ImageData) : ImageData :=
  paintPoints (fun _ => RGBA.black) img (ellipseOutlinePoints p0 p1)

/-- Invert one 8-bit channel: `255 - channel`. -/
def invChannel (c : Fin 256) : Fin 256 := ⟨255 - c.val, by omega⟩

/-- Invert the R, G, B channels of a pixel; the alpha channel is untouched. -/
def invPixel (c : RGBA) : RGBA := ⟨invChannel c.r, invChannel c.g, invChannel c.b, c.a⟩

/-- Modelled from the spec: `ColorEffects.inverseColors(buffer)` replaces each
of the R, G, B channels of every pixel by `255 - channel` and leaves the alpha
channel untouched (`DrawingPrimitives/ColorEffects.ts` is not under `src/`). -/
def ColorEffects.inverseColors (img : ImageData) : ImageData :=
  { img with data := img.data.map invPixel }

/-- The state of the ellipse tool: its two nullable gesture points and the
pixel data of the two surfaces of its `DrawingTool` base (`workingCanvas` is
the preview surface, `drawingCanvas` the committed surface). -/
structure EllipseToolState where
  firstPoint : Option PixPoint
  secondPoint : Option PixPoint
  workingCanvas : ImageData
  drawingCanvas : ImageData
deriving DecidableEq

/-- The ellipse tool right after construction: both points are null. -/
def EllipseTool.init (working drawing : ImageData) : EllipseToolState :=
  ⟨none, none, working, drawing⟩

/-- `EllipseTool.apply(image, parameters)`: the `getImageData` / draw /
`setImageData` round trip on the target canvas. -/
def EllipseTool.apply (fp sp : PixPoint) (img : ImageData) : ImageData :=
  Ellipse.drawFromBoundingRect fp sp img

/-- `EllipseTool.onMouseDown`: unconditionally captures and floors the event
position as `firstPoint` (the source has no guard against an ongoing
gesture). -/
def EllipseTool.onMouseDown (g : CanvasGeometry) (event : MouseEvent)
    (s : EllipseToolState) : EllipseToolState :=
  { s with firstPoint := some (floorPoint (Canvas.getMouseEventCoordinates g event)) }

/-- `EllipseTool.onMouseUp`: if no gesture is in progress, return; otherwise
capture and floor the release position, apply the ellipse to the drawing
canvas, clear the working canvas, and null both points. -/
def EllipseTool.onMouseUp (g : CanvasGeometry) (event : MouseEvent)
    (s : EllipseToolState) : EllipseToolState :=
  match s.firstPoint with
  | none => s
  | some fp =>
    let sp := floorPoint (Canvas.getMouseEventCoordinates g event)
    { firstPoint := none, secondPoint := none,
      workingCanvas := Canvas.clear s.workingCanvas,
      drawingCanvas := EllipseTool.apply fp sp s.drawingCanvas }

/-- `EllipseTool.onMouseMove`: if no gesture is in progress, return; otherwise
capture and floor the current position as `secondPoint`, clear the working
canvas and apply the ellipse to it. -/
def EllipseTool.onMouseMove (g : CanvasGeometry) (event : MouseEvent)
    (s : EllipseToolState) : EllipseToolState :=
  match s.firstPoint with
  | none => s
  | some fp =>
    let sp := floorPoint (Canvas.getMouseEventCoordinates g event)
    { s with secondPoint := some sp,
             workingCanvas := EllipseTool.apply fp sp (Canvas.clear s.workingCanvas) }

/-- The state of the free-hand tool: the nullable last known mouse position
and the pixel data of the two surfaces of its workspace. -/
structure FreeHandToolState where
  lastPosition : Option PixPoint
  workingCanvas : ImageData
  drawingCanvas : ImageData
deriving DecidableEq

/-- The free-hand tool right after construction: `lastPosition` is null. -/
def FreeHandTool.init (working drawing : ImageData) : FreeHandToolState :=
  ⟨none, working, drawing⟩

/-- `FreeHandTool.drawLine`: draw a black segment from the last position to
the current one through the `getImageData` / `setImageData` round trip. -/
def FreeHandTool.drawLine (lastPos : PixPoint) (img : ImageData)
    (currentPosition : PixPoint) : ImageData :=
  Line.draw img lastPos currentPosition Line.paintItBlack

/-- `FreeHandTool.onMouseDown`: if a gesture is already in progress
(`lastPosition` non-null) return; otherwise capture and floor the position. -/
def FreeHandTool.onMouseDown (g : CanvasGeometry) (event : MouseEvent)
    (s : FreeHandToolState) : FreeHandToolState :=
  match s.lastPosition with
  | some _ => s
  | none =>
    { s with lastPosition := some (floorPoint (Canvas.getMouseEventCoordinates g event)) }

/-- `FreeHandTool.onMouseMove`: if no gesture is in progress return; otherwise
floor the current position, draw the segment on the drawing canvas, and
advance `lastPosition`. -/
def FreeHandTool.onMouseMove (g : CanvasGeometry) (event : MouseEvent)
    (s : FreeHandToolState) : FreeHandToolState :=
  match s.lastPosition with
  | none => s
  | some q =>
    let currentPosition := floorPoint (Canvas.getMouseEventCoordinates g event)
    { s with drawingCanvas := FreeHandTool.drawLine q s.drawingCanvas currentPosition,
             lastPosition := some currentPosition }

/-- `FreeHandTool.onMouseUp`: first draw the last line by delegating to
`onMouseMove`, then null `lastPosition`. -/
def FreeHandTool.onMouseUp (g : CanvasGeometry) (event : MouseEvent)
    (s : FreeHandToolState) : FreeHandToolState :=
  { FreeHandTool.onMouseMove g event s with lastPosition := none }

/-- A drawing layer of the workspace: it owns one canvas buffer. -/
structure Layer where
  canvas : ImageData
deriving DecidableEq

/-- Modelled from the spec: the layer container of the workspace
(`ImageWorkspace.ts` and the layer list are not under `src/`): a list of
layers with an optional selected index. -/
structure DrawingLayers where
  layers : List Layer
  selectedIndex : Option Nat
deriving DecidableEq

/-- The currently selected layer, null when nothing (valid) is selected. -/
def DrawingLayers.selectedLayer (dl : DrawingLayers) : Option Layer :=
  dl.selectedIndex.bind fun i => dl.layers[i]?

/-- Modelled from the spec: the image workspace owning the drawing layers and
the preview (working) surface (`ImageWorkspace.ts` is not under `src/`). -/
structure ImageWorkspace where
  drawingLayers : DrawingLayers
  workingCanvas : ImageData
deriving DecidableEq

/-- `InverseColorEffect.apply`: if no layer is selected, return; otherwise
read the selected layer's pixel data, invert its colors and write it back to
the same layer. -/
def InverseColorEffect.apply (w : ImageWorkspace) : ImageWorkspace :=
  match w.drawingLayers.selectedIndex with
  | none => w
  | some i =>
    match w.drawingLayers.layers[i]? with
    | none => w
    | some layer =>
      let imageData := layer.canvas
      let imageData2 := ColorEffects.inverseColors imageData
      { w with drawingLayers :=
          { w.drawingLayers with layers := w.drawingLayers.layers.set i ⟨imageData2⟩ } }

/-- A 4×1 fully transparent test buffer. -/
def img4x1 : ImageData := ⟨4, 1, List.replicate 4 RGBA.transparent⟩

/-- A 3×3 fully transparent test buffer. -/
def img3x3 : ImageData := ⟨3, 3, List.replicate 9 RGBA.transparent⟩

/-- A canvas geometry whose CSS size equals its backing size (scale 1): the
bounding rectangle spans (0,0)–(4,1) and the backing buffer is 4×1. -/
def g0 : CanvasGeometry := ⟨⟨0, 0, 4, 1⟩, 4, 1⟩

/-- The implicit ellipse-tool gesture-state invariant: an absent first
(anchor) point forces an absent second point. -/
def EllipseToolState.Consistent (s : EllipseToolState) : Prop :=
  s.firstPoint = none → s.secondPoint = none

/-- A workspace with no selected layer. -/
def wNone : ImageWorkspace := ⟨⟨[Layer.mk img4x1], none⟩, img3x3⟩

/-- A workspace of two layers with the first one selected. -/
def wSel : ImageWorkspace := ⟨⟨[Layer.mk img4x1, Layer.mk img3x3], some 0⟩, img3x3⟩

/-- Supporting lemmas about the embedded buffer operations and primitives. -/
theorem getMouseEventCoordinates_unitScale (w h : ℚ) (hw : w ≠ 0) (hh : h ≠ 0)
    (e : MouseEvent) :
    Canvas.getMouseEventCoordinates ⟨⟨0, 0, w, h⟩, w, h⟩ e = ⟨e.clientX, e.clientY⟩ := by
  simp only [Canvas.getMouseEventCoordinates, Point.mk.injEq]
  constructor <;> · field_simp

theorem set_eq_of_getElem {α : Type} (l : List α) (n : Nat) (a : α)
    (h : l[n]? = some a) : l.set n a = l := by
  induction l generalizing n with
  | nil => simp at h
  | cons x xs ih =>
    cases n with
    | zero =>
      simp only [List.getElem?_cons_zero, Option.some.injEq] at h
      simp [h]
    | succ m =>
      simp only [List.getElem?_cons_succ] at h
      simp [ih m h]

theorem setPixel_width (img : ImageData) (p : PixPoint) (c : RGBA) :
    (img.setPixel p c).width = img.width := by
  unfold ImageData.setPixel
  split <;> rfl

theorem setPixel_height (img : ImageData) (p : PixPoint) (c : RGBA) :
    (img.setPixel p c).height = img.height := by
  unfold ImageData.setPixel
  split <;> rfl

theorem setPixel_length (img : ImageData) (p : PixPoint) (c : RGBA) :
    (img.setPixel p c).data.length = img.data.length := by
  unfold ImageData.setPixel
  split <;> simp

theorem setPixel_inBounds (img : ImageData) (p q : PixPoint) (c : RGBA) :
    (img.setPixel q c).inBounds p ↔ img.inBounds p := by
  unfold ImageData.inBounds
  rw [setPixel_width, setPixel_height]

theorem setPixel_Wf (img : ImageData) (p : PixPoint) (c : RGBA) (h : img.Wf) :
    (img.setPixel p c).Wf := by
  unfold ImageData.Wf at h ⊢
  rw [setPixel_width, setPixel_height, setPixel_length, h]

theorem paintPoints_width (f : PixPoint → RGBA) (pts : List PixPoint) (img : ImageData) :
    (paintPoints f img pts).width = img.width := by
  induction pts generalizing img with
  | nil => rfl
  | cons q rest ih =>
    show (paintPoints f (img.setPixel q (f q)) rest).width = img.width
    rw [ih, setPixel_width]

theorem paintPoints_height (f : PixPoint → RGBA) (pts : List PixPoint) (img : ImageData) :
    (paintPoints f img pts).height = img.height := by
  induction pts generalizing img with
  | nil => rfl
  | cons q rest ih =>
    show (paintPoints f (img.setPixel q (f q)) rest).height = img.height
    rw [ih, setPixel_height]

theorem paintPoints_length (f : PixPoint → RGBA) (pts : List PixPoint) (img : ImageData) :
    (paintPoints f img pts).data.length = img.data.length := by
  induction pts generalizing img with
  | nil => rfl
  | cons q rest ih =>
    show (paintPoints f (img.setPixel q (f q)) rest).data.length = img.data.length
    rw [ih, setPixel_length]

theorem paintPoints_inBounds (f : PixPoint → RGBA) (pts : List PixPoint) (img : ImageData)
    (p : PixPoint) : (paintPoints f img pts).inBounds p ↔ img.inBounds p := by
  unfold ImageData.inBounds
  rw [paintPoints_width, paintPoints_height]

theorem paintPoints_Wf (f : PixPoint → RGBA) (pts : List PixPoint) (img : ImageData)
    (h : img.Wf) : (paintPoints f img pts).Wf := by
  unfold ImageData.Wf at h ⊢
  rw [paintPoints_width, paintPoints_height, paintPoints_length, h]

theorem toNat_bounds {img : ImageData} {p : PixPoint} (h : img.inBounds p) :
    p.x.toNat < img.width ∧ p.y.toNat < img.height := by
  obtain ⟨h1, h2, h3, h4⟩ := h
  omega

theorem idx_lt {img : ImageData} {p : PixPoint} (h : img.inBounds p) :
    img.idx p < img.width * img.height := by
  obtain ⟨hx, hy⟩ := toNat_bounds h
  unfold ImageData.idx
  calc p.y.toNat * img.width + p.x.toNat
      < (p.y.toNat + 1) * img.width := by
        rw [Nat.succ_mul]
        omega
    _ ≤ img.height * img.width := Nat.mul_le_mul_right _ (by omega)
    _ = img.width * img.height := Nat.mul_comm _ _

theorem idx_inj {img : ImageData} {p q : PixPoint} (hp : img.inBounds p)
    (hq : img.inBounds q) (h : img.idx p = img.idx q) : p = q := by
  obtain ⟨hpx, hpy⟩ := toNat_bounds hp
  obtain ⟨hqx, hqy⟩ := toNat_bounds hq
  unfold ImageData.idx at h
  have hx : p.x.toNat = q.x.toNat := by
    have e1 : (img.width * p.y.toNat + p.x.toNat) % img.width = p.x.toNat := by
      rw [Nat.mul_add_mod, Nat.mod_eq_of_lt hpx]
    have e2 : (img.width * q.y.toNat + q.x.toNat) % img.width = q.x.toNat := by
      rw [Nat.mul_add_mod, Nat.mod_eq_of_lt hqx]
    rw [Nat.mul_comm img.width p.y.toNat] at e1
    rw [Nat.mul_comm img.width q.y.toNat] at e2
    rw [← e1, ← e2, h]
  have hy : p.y.toNat = q.y.toNat := by
    have hw : 0 < img.width := by omega
    have : p.y.toNat * img.width = q.y.toNat * img.width := by omega
    exact Nat.eq_of_mul_eq_mul_right hw this
  obtain ⟨h1, _, h3, _⟩ := hp
  obtain ⟨h5, _, h7, _⟩ := hq
  cases p
  cases q
  simp only [PixPoint.mk.injEq]
  simp only at h1 h3 h5 h7 hx hy
  omega

theorem getPixel_setPixel_same {img : ImageData} {p : PixPoint} (c : RGBA)
    (hb : img.inBounds p) (hw : img.Wf) : (img.setPixel p c).getPixel p = some c := by
  unfold ImageData.setPixel
  rw [if_pos hb]
  unfold ImageData.getPixel
  have hb' : (⟨img.width, img.height, img.data.set (img.idx p) c⟩ : ImageData).inBounds p := hb
  rw [if_pos hb']
  have hlt : img.idx p < img.data.length := by
    rw [hw]
    exact idx_lt hb
  exact List.getElem?_set_self (by simpa using hlt)

theorem getPixel_setPixel_other {img : ImageData} {p q : PixPoint} (c : RGBA)
    (hne : q ≠ p) : (img.setPixel q c).getPixel p = img.getPixel p := by
  unfold ImageData.setPixel
  by_cases hq : img.inBounds q
  · rw [if_pos hq]
    unfold ImageData.getPixel
    by_cases hp : img.inBounds p
    · have hp' : (⟨img.width, img.height, img.data.set (img.idx q) c⟩ : ImageData).inBounds p := hp
      rw [if_pos hp', if_pos hp]
      have hidx : img.idx q ≠ img.idx p := fun he => hne (idx_inj hq hp he)
      exact List.getElem?_set_ne hidx
    · have hp' : ¬ (⟨img.width, img.height, img.data.set (img.idx q) c⟩ : ImageData).inBounds p := hp
      rw [if_neg hp', if_neg hp]
  · rw [if_neg hq]

theorem getPixel_paintPoints_not_mem {f : PixPoint → RGBA} {pts : List PixPoint}
    {img : ImageData} {p : PixPoint} (h : p ∉ pts) :
    (paintPoints f img pts).getPixel p = img.getPixel p := by
  induction pts generalizing img with
  | nil => rfl
  | cons q rest ih =>
    have hq : q ≠ p := fun he => h (he ▸ List.mem_cons_self q rest)
    have hrest : p ∉ rest := fun hm => h (List.mem_cons_of_mem q hm)
    show (paintPoints f (img.setPixel q (f q)) rest).getPixel p = img.getPixel p
    rw [ih hrest, getPixel_setPixel_other _ hq]

theorem getPixel_paintPoints_mem {f : PixPoint → RGBA} {pts : List PixPoint}
    {img : ImageData} {p : PixPoint} (hmem : p ∈ pts) (hb : img.inBounds p)
    (hw : img.Wf) : (paintPoints f img pts).getPixel p = some (f p) := by
  induction pts generalizing img with
  | nil => cases hmem
  | cons q rest ih =>
    show (paintPoints f (img.setPixel q (f q)) rest).getPixel p = some (f p)
    by_cases hp : p ∈ rest
    · exact ih hp ((setPixel_inBounds img p q (f q)).2 hb) (setPixel_Wf img q (f q) hw)
    · have hpq : p = q := by
        cases hmem with
        | head => rfl
        | tail _ hm => exact absurd hm hp
      subst hpq
      rw [getPixel_paintPoints_not_mem hp, getPixel_setPixel_same (f p) hb hw]

theorem setPixel_eq_self {img : ImageData} {p : PixPoint} {c : RGBA}
    (h : img.getPixel p = some c) : img.setPixel p c = img := by
  unfold ImageData.getPixel at h
  by_cases hb : img.inBounds p
  · rw [if_pos hb] at h
    unfold ImageData.setPixel
    rw [if_pos hb, set_eq_of_getElem _ _ _ h]
  · rw [if_neg hb] at h
    cases h

theorem setPixel_oob {img : ImageData} {p : PixPoint} (c : RGBA)
    (hb : ¬ img.inBounds p) : img.setPixel p c = img := by
  unfold ImageData.setPixel
  rw [if_neg hb]

theorem lineInterp_last (d n : Nat) (hn : n ≠ 0) : lineInterp d n n = d := by
  unfold lineInterp
  rw [show 2 * n * d + n = n * (2 * d + 1) by ring, show 2 * n = n * 2 by ring,
    Nat.mul_div_mul_left _ _ (Nat.pos_of_ne_zero hn)]
  omega

theorem bresenhamPoints_self (p : PixPoint) : bresenhamPoints p p = [p] := by
  unfold bresenhamPoints
  simp

theorem right_mem_bresenhamPoints (p0 p1 : PixPoint) : p1 ∈ bresenhamPoints p0 p1 := by
  unfold bresenhamPoints
  by_cases h : max (p1.x - p0.x).natAbs (p1.y - p0.y).natAbs = 0
  · rw [if_pos h]
    have hx : p1.x = p0.x := by omega
    have hy : p1.y = p0.y := by omega
    cases p0
    cases p1
    simp only at hx hy
    simp [hx, hy]
  · rw [if_neg h]
    refine List.mem_map.2 ⟨max (p1.x - p0.x).natAbs (p1.y - p0.y).natAbs, ?_, ?_⟩
    · exact List.mem_range.2 (by omega)
    · have hdx : lineInterp (p1.x - p0.x).natAbs
          (max (p1.x - p0.x).natAbs (p1.y - p0.y).natAbs)
          (max (p1.x - p0.x).natAbs (p1.y - p0.y).natAbs) = (p1.x - p0.x).natAbs :=
        lineInterp_last _ _ h
      have hdy : lineInterp (p1.y - p0.y).natAbs
          (max (p1.x - p0.x).natAbs (p1.y - p0.y).natAbs)
          (max (p1.x - p0.x).natAbs (p1.y - p0.y).natAbs) = (p1.y - p0.y).natAbs :=
        lineInterp_last _ _ h
      rw [hdx, hdy, Int.sign_mul_natAbs, Int.sign_mul_natAbs,
        show p0.x + (p1.x - p0.x) = p1.x from by ring,
        show p0.y + (p1.y - p0.y) = p1.y from by ring]

theorem clear_inBounds (img : ImageData) (p : PixPoint) :
    (Canvas.clear img).inBounds p ↔ img.inBounds p := Iff.rfl

theorem getPixel_clear {img : ImageData} {p : PixPoint} (hw : img.Wf)
    (hb : img.inBounds p) : (Canvas.clear img).getPixel p = some RGBA.transparent := by
  have hlt : img.idx p < img.data.length := by
    rw [hw]
    exact idx_lt hb
  unfold Canvas.clear ImageData.getPixel
  have hb' : (⟨img.width, img.height, img.data.map fun _ => RGBA.transparent⟩ :
      ImageData).inBounds p := hb
  rw [if_pos hb']
  have hidx : (⟨img.width, img.height, img.data.map fun _ => RGBA.transparent⟩ :
      ImageData).idx p = img.idx p := rfl
  rw [hidx, List.getElem?_map, List.getElem?_eq_getElem hlt]
  rfl

theorem invChannel_invChannel (c : Fin 256) : invChannel (invChannel c) = c := by
  have h := c.isLt
  apply Fin.ext
  show 255 - (255 - c.val) = c.val
  omega

theorem invPixel_invPixel (c : RGBA) : invPixel (invPixel c) = c := by
  obtain ⟨r, g, b, a⟩ := c
  simp [invPixel, invChannel_invChannel]

/-- Counterexample to claim C1 as stated for every tool: for the free-hand
tool, a pointer-move during a gesture (after pointer-down, before pointer-up)
already mutates the pixel data of the drawing (committed) surface. -/
theorem C1_counterexample :
    (FreeHandTool.onMouseMove g0 ⟨3, 0⟩ (FreeHandTool.onMouseDown g0 ⟨0, 0⟩
        (FreeHandTool.init img4x1 img4x1))).drawingCanvas ≠ img4x1 := by
  have hc : ∀ e : MouseEvent, Canvas.getMouseEventCoordinates g0 e = ⟨e.clientX, e.clientY⟩ :=
    getMouseEventCoordinates_unitScale 4 1 (by norm_num) (by norm_num)
  simp only [FreeHandTool.onMouseDown, FreeHandTool.onMouseMove, FreeHandTool.init, hc]
  decide

/-- Claim C1 (amended to the ellipse tool): no ellipse-tool handler other than
pointer-up touches the drawing (committed) surface: `onMouseDown` and
`onMouseMove` leave its pixel data unchanged (and `onMouseDown` also leaves
the preview surface unchanged), so during a gesture only the preview surface
is mutated and the drawing surface is written at most once, on pointer-up. -/
theorem C1_ellipse_drawing_surface_untouched_mid_gesture (g : CanvasGeometry)
    (e : MouseEvent) (s : EllipseToolState) :
    (EllipseTool.onMouseDown g e s).drawingCanvas = s.drawingCanvas ∧
    (EllipseTool.onMouseMove g e s).drawingCanvas = s.drawingCanvas ∧
    (EllipseTool.onMouseDown g e s).workingCanvas = s.workingCanvas := by
  refine ⟨rfl, ?_, rfl⟩
  cases hfp : s.firstPoint <;> simp [EllipseTool.onMouseMove, hfp]

/-- Counterexample to claim C2 as stated for every tool: the ellipse tool's
`onMouseDown` has no guard, so a duplicate pointer-down during a gesture
re-captures the anchor point (the state changes), and the event sequence
down, down, move, up commits a different drawing surface than
down, move, up. -/
theorem C2_counterexample :
    EllipseTool.onMouseDown g0 ⟨2, 0⟩ (EllipseTool.onMouseDown g0 ⟨0, 0⟩
        (EllipseTool.init img4x1 img4x1))
      ≠ EllipseTool.onMouseDown g0 ⟨0, 0⟩ (EllipseTool.init img4x1 img4x1) ∧
    (EllipseTool.onMouseUp g0 ⟨3, 0⟩ (EllipseTool.onMouseMove g0 ⟨3, 0⟩
        (EllipseTool.onMouseDown g0 ⟨2, 0⟩ (EllipseTool.onMouseDown g0 ⟨0, 0⟩
          (EllipseTool.init img4x1 img4x1))))).drawingCanvas
      ≠ (EllipseTool.onMouseUp g0 ⟨3, 0⟩ (EllipseTool.onMouseMove g0 ⟨3, 0⟩
        (EllipseTool.onMouseDown g0 ⟨0, 0⟩
          (EllipseTool.init img4x1 img4x1)))).drawingCanvas := by
  have hc : ∀ e : MouseEvent, Canvas.getMouseEventCoordinates g0 e = ⟨e.clientX, e.clientY⟩ :=
    getMouseEventCoordinates_unitScale 4 1 (by norm_num) (by norm_num)
  constructor <;>
  · simp only [EllipseTool.onMouseDown, EllipseTool.onMouseMove, EllipseTool.onMouseUp,
      EllipseTool.init, hc]
    decide

/-- Claim C2 (amended to the free-hand tool): for the free-hand tool a
pointer-down received while a gesture is in progress is a no-op, and the event
sequence down, down, move, up produces exactly the same tool state and pixel
data on both surfaces as down, move, up; the ellipse tool, by contrast,
re-captures its anchor on every pointer-down. -/
theorem C2_freehand_duplicate_down_ignored (g : CanvasGeometry)
    (e1 e2 e3 e4 : MouseEvent) (s : FreeHandToolState) (h : s.lastPosition = none) :
    FreeHandTool.onMouseDown g e2 (FreeHandTool.onMouseDown g e1 s)
      = FreeHandTool.onMouseDown g e1 s ∧
    FreeHandTool.onMouseUp g e4 (FreeHandTool.onMouseMove g e3
        (FreeHandTool.onMouseDown g e2 (FreeHandTool.onMouseDown g e1 s)))
      = FreeHandTool.onMouseUp g e4 (FreeHandTool.onMouseMove g e3
        (FreeHandTool.onMouseDown g e1 s)) := by
  have h1 : FreeHandTool.onMouseDown g e1 s
      = { s with lastPosition := some (floorPoint (Canvas.getMouseEventCoordinates g e1)) } := by
    simp [FreeHandTool.onMouseDown, h]
  have h2 : FreeHandTool.onMouseDown g e2 (FreeHandTool.onMouseDown g e1 s)
      = FreeHandTool.onMouseDown g e1 s := by
    rw [h1]
    rfl
  exact ⟨h2, by rw [h2]⟩

/-- Witness for C2: the amended claim at a concrete gesture on a 4×1 buffer
with duplicate pointer-down positions (0,0) and (2,0), move and release at
(3,0). -/
theorem C2_witness :
    FreeHandTool.onMouseDown g0 ⟨2, 0⟩ (FreeHandTool.onMouseDown g0 ⟨0, 0⟩
        (FreeHandTool.init img4x1 img4x1))
      = FreeHandTool.onMouseDown g0 ⟨0, 0⟩ (FreeHandTool.init img4x1 img4x1) ∧
    FreeHandTool.onMouseUp g0 ⟨3, 0⟩ (FreeHandTool.onMouseMove g0 ⟨3, 0⟩
        (FreeHandTool.onMouseDown g0 ⟨2, 0⟩ (FreeHandTool.onMouseDown g0 ⟨0, 0⟩
          (FreeHandTool.init img4x1 img4x1))))
      = FreeHandTool.onMouseUp g0 ⟨3, 0⟩ (FreeHandTool.onMouseMove g0 ⟨3, 0⟩
        (FreeHandTool.onMouseDown g0 ⟨0, 0⟩ (FreeHandTool.init img4x1 img4x1))) :=
  C2_freehand_duplicate_down_ignored g0 ⟨0, 0⟩ ⟨2, 0⟩ ⟨3, 0⟩ ⟨3, 0⟩
    (FreeHandTool.init img4x1 img4x1) rfl

/-- Claim C3: evaluation of the coordinate mapping at a concrete event where
the CSS size is twice the backing size (s = 2): the bounding rectangle spans
(0,0)–(2,2) while the backing buffer is 1×1, and the pointer sits at client
offset (2,2). The code returns the offset multiplied by s (giving 4), not the
offset divided by s (which would be 1), so the result is not in buffer-pixel
space. -/
theorem C3_code_multiplies_by_css_scale :
    (Canvas.getMouseEventCoordinates ⟨⟨0, 0, 2, 2⟩, 1, 1⟩ ⟨2, 2⟩).x = 2 * 2 ∧
    (Canvas.getMouseEventCoordinates ⟨⟨0, 0, 2, 2⟩, 1, 1⟩ ⟨2, 2⟩).x ≠ 2 / 2 := by
  refine ⟨?_, ?_⟩ <;> norm_num [Canvas.getMouseEventCoordinates]

/-- Claim C6: for both tools, a pointer-up in the idle state (no gesture in
progress) is a silent no-op: the handler totally evaluates (raises nothing)
and returns the state unchanged, including the pixel data of both surfaces. -/
theorem C6_idle_pointer_up_noop (g g' : CanvasGeometry) (e e' : MouseEvent)
    (sE : EllipseToolState) (sF : FreeHandToolState)
    (hE : sE.firstPoint = none) (hF : sF.lastPosition = none) :
    EllipseTool.onMouseUp g e sE = sE ∧ FreeHandTool.onMouseUp g' e' sF = sF := by
  constructor
  · simp [EllipseTool.onMouseUp, hE]
  · obtain ⟨last, wc, dc⟩ := sF
    simp only at hF
    subst hF
    simp [FreeHandTool.onMouseUp, FreeHandTool.onMouseMove]

/-- Witness for C6: both tools in their just-constructed idle state drop a
pointer-up at (3,0) without any state change. -/
theorem C6_witness :
    EllipseTool.onMouseUp g0 ⟨3, 0⟩ (EllipseTool.init img4x1 img4x1)
      = EllipseTool.init img4x1 img4x1 ∧
    FreeHandTool.onMouseUp g0 ⟨3, 0⟩ (FreeHandTool.init img4x1 img4x1)
      = FreeHandTool.init img4x1 img4x1 :=
  C6_idle_pointer_up_noop g0 g0 ⟨3, 0⟩ ⟨3, 0⟩ (EllipseTool.init img4x1 img4x1)
    (FreeHandTool.init img4x1 img4x1) rfl rfl

/-- Counterexample to claim C4 as stated: when the release position differs
from the last move position, the free-hand `onMouseUp` (which first delegates
to `onMouseMove`) draws one extra segment, so the drawing surface after
pointer-up differs from its state right after the last pointer-move: gesture
down (0,0), move (1,0), up (3,0) on a 4×1 buffer. -/
theorem C4_counterexample :
    (FreeHandTool.onMouseUp g0 ⟨3, 0⟩ (FreeHandTool.onMouseMove g0 ⟨1, 0⟩
        (FreeHandTool.onMouseDown g0 ⟨0, 0⟩ (FreeHandTool.init img4x1 img4x1)))).drawingCanvas
      ≠ (FreeHandTool.onMouseMove g0 ⟨1, 0⟩ (FreeHandTool.onMouseDown g0 ⟨0, 0⟩
        (FreeHandTool.init img4x1 img4x1))).drawingCanvas := by
  have hc : ∀ e : MouseEvent, Canvas.getMouseEventCoordinates g0 e = ⟨e.clientX, e.clientY⟩ :=
    getMouseEventCoordinates_unitScale 4 1 (by norm_num) (by norm_num)
  simp only [FreeHandTool.onMouseDown, FreeHandTool.onMouseMove, FreeHandTool.onMouseUp,
    FreeHandTool.init, hc]
  decide

/-- Claim C4 (amended): the free-hand `onMouseUp` performs one final
move-equivalent draw from the last position to the release position and then
resets the last-position state to null; when the release event carries the
same position as the last preceding move, that final draw repaints only the
already-black endpoint pixel, so the drawing surface after `onMouseUp` equals
its state immediately after that move. -/
theorem C4_up_at_move_position_draws_nothing_new (g : CanvasGeometry) (e : MouseEvent)
    (s : FreeHandToolState) (q : PixPoint) (hq : s.lastPosition = some q)
    (hw : s.drawingCanvas.Wf) :
    (FreeHandTool.onMouseUp g e (FreeHandTool.onMouseMove g e s)).drawingCanvas
      = (FreeHandTool.onMouseMove g e s).drawingCanvas ∧
    (FreeHandTool.onMouseUp g e (FreeHandTool.onMouseMove g e s)).lastPosition = none := by
  refine ⟨?_, rfl⟩
  have hmove : FreeHandTool.onMouseMove g e s =
      ⟨some (floorPoint (Canvas.getMouseEventCoordinates g e)), s.workingCanvas,
        Line.draw s.drawingCanvas q (floorPoint (Canvas.getMouseEventCoordinates g e))
          Line.paintItBlack⟩ := by
    simp [FreeHandTool.onMouseMove, hq]
    rfl
  rw [hmove]
  show (FreeHandTool.onMouseMove g e
      ⟨some (floorPoint (Canvas.getMouseEventCoordinates g e)), s.workingCanvas,
        Line.draw s.drawingCanvas q (floorPoint (Canvas.getMouseEventCoordinates g e))
          Line.paintItBlack⟩).drawingCanvas
    = Line.draw s.drawingCanvas q (floorPoint (Canvas.getMouseEventCoordinates g e))
        Line.paintItBlack
  show Line.draw
      (Line.draw s.drawingCanvas q (floorPoint (Canvas.getMouseEventCoordinates g e))
        Line.paintItBlack)
      (floorPoint (Canvas.getMouseEventCoordinates g e))
      (floorPoint (Canvas.getMouseEventCoordinates g e)) Line.paintItBlack
    = Line.draw s.drawingCanvas q (floorPoint (Canvas.getMouseEventCoordinates g e))
        Line.paintItBlack
  unfold Line.draw
  rw [bresenhamPoints_self]
  show (paintPoints Line.paintItBlack s.drawingCanvas
      (bresenhamPoints q (floorPoint (Canvas.getMouseEventCoordinates g e)))).setPixel
      (floorPoint (Canvas.getMouseEventCoordinates g e)) RGBA.black
    = paintPoints Line.paintItBlack s.drawingCanvas
        (bresenhamPoints q (floorPoint (Canvas.getMouseEventCoordinates g e)))
  by_cases hb : (paintPoints Line.paintItBlack s.drawingCanvas
      (bresenhamPoints q (floorPoint (Canvas.getMouseEventCoordinates g e)))).inBounds
      (floorPoint (Canvas.getMouseEventCoordinates g e))
  · apply setPixel_eq_self
    exact getPixel_paintPoints_mem
      (right_mem_bresenhamPoints q (floorPoint (Canvas.getMouseEventCoordinates g e)))
      ((paintPoints_inBounds _ _ _ _).1 hb) hw
  · exact setPixel_oob _ hb

/-- Witness for C4: a concrete gesture state on a 4×1 buffer with last
position (0,0), moved and released at (1,0). -/
theorem C4_witness :
    (FreeHandTool.onMouseUp g0 ⟨1, 0⟩ (FreeHandTool.onMouseMove g0 ⟨1, 0⟩
        (⟨some ⟨0, 0⟩, img4x1, img4x1⟩ : FreeHandToolState))).drawingCanvas
      = (FreeHandTool.onMouseMove g0 ⟨1, 0⟩
        (⟨some ⟨0, 0⟩, img4x1, img4x1⟩ : FreeHandToolState)).drawingCanvas ∧
    (FreeHandTool.onMouseUp g0 ⟨1, 0⟩ (FreeHandTool.onMouseMove g0 ⟨1, 0⟩
        (⟨some ⟨0, 0⟩, img4x1, img4x1⟩ : FreeHandToolState))).lastPosition = none :=
  C4_up_at_move_position_draws_nothing_new g0 ⟨1, 0⟩ ⟨some ⟨0, 0⟩, img4x1, img4x1⟩
    ⟨0, 0⟩ rfl (by decide)

/-- Claim C5: while a gesture is in progress (`firstPoint` non-null), the
ellipse tool's pointer-up captures and floors the release position, renders
the shape onto the drawing surface (leaving the preview surface with the
cleared buffer, every in-bounds pixel fully transparent), and resets both
gesture points to null — the idle state. -/
theorem C5_ellipse_up_commits_and_resets (g : CanvasGeometry) (e : MouseEvent)
    (s : EllipseToolState) (fp : PixPoint) (h : s.firstPoint = some fp)
    (hw : s.workingCanvas.Wf) :
    (EllipseTool.onMouseUp g e s).firstPoint = none ∧
    (EllipseTool.onMouseUp g e s).secondPoint = none ∧
    (EllipseTool.onMouseUp g e s).drawingCanvas
      = Ellipse.drawFromBoundingRect fp (floorPoint (Canvas.getMouseEventCoordinates g e))
          s.drawingCanvas ∧
    (EllipseTool.onMouseUp g e s).workingCanvas = Canvas.clear s.workingCanvas ∧
    ∀ p, (EllipseTool.onMouseUp g e s).workingCanvas.inBounds p →
      (EllipseTool.onMouseUp g e s).workingCanvas.getPixel p = some RGBA.transparent := by
  have hup : EllipseTool.onMouseUp g e s =
      ⟨none, none, Canvas.clear s.workingCanvas,
        EllipseTool.apply fp (floorPoint (Canvas.getMouseEventCoordinates g e))
          s.drawingCanvas⟩ := by
    simp [EllipseTool.onMouseUp, h]
  rw [hup]
  refine ⟨rfl, rfl, rfl, rfl, ?_⟩
  intro p hp
  exact getPixel_clear hw ((clear_inBounds s.workingCanvas p).1 hp)

/-- Witness for C5: a concrete in-progress gesture anchored at (0,0) on 3×3
buffers, released at (2,2). -/
theorem C5_witness :
    (EllipseTool.onMouseUp g0 ⟨2, 2⟩
        (⟨some ⟨0, 0⟩, none, img3x3, img3x3⟩ : EllipseToolState)).firstPoint = none ∧
    (EllipseTool.onMouseUp g0 ⟨2, 2⟩
        (⟨some ⟨0, 0⟩, none, img3x3, img3x3⟩ : EllipseToolState)).secondPoint = none ∧
    (EllipseTool.onMouseUp g0 ⟨2, 2⟩
        (⟨some ⟨0, 0⟩, none, img3x3, img3x3⟩ : EllipseToolState)).drawingCanvas
      = Ellipse.drawFromBoundingRect ⟨0, 0⟩
          (floorPoint (Canvas.getMouseEventCoordinates g0 ⟨2, 2⟩)) img3x3 ∧
    (EllipseTool.onMouseUp g0 ⟨2, 2⟩
        (⟨some ⟨0, 0⟩, none, img3x3, img3x3⟩ : EllipseToolState)).workingCanvas
      = Canvas.clear img3x3 ∧
    ∀ p, (EllipseTool.onMouseUp g0 ⟨2, 2⟩
        (⟨some ⟨0, 0⟩, none, img3x3, img3x3⟩ : EllipseToolState)).workingCanvas.inBounds p →
      (EllipseTool.onMouseUp g0 ⟨2, 2⟩
        (⟨some ⟨0, 0⟩, none, img3x3, img3x3⟩ : EllipseToolState)).workingCanvas.getPixel p
        = some RGBA.transparent :=
  C5_ellipse_up_commits_and_resets g0 ⟨2, 2⟩ ⟨some ⟨0, 0⟩, none, img3x3, img3x3⟩
    ⟨0, 0⟩ rfl (by decide)

/-- Claim C7: when no layer is selected the inverse-color effect is a no-op
that leaves the workspace unchanged (not an error); when a layer is selected
it reads that layer's pixel data, inverts it, and writes the result back to
the same layer, leaving the selection and the preview surface alone. -/
theorem C7_effect_apply_requires_selection (w : ImageWorkspace) :
    (w.drawingLayers.selectedLayer = none → InverseColorEffect.apply w = w) ∧
    ∀ i L, w.drawingLayers.selectedIndex = some i →
      w.drawingLayers.layers[i]? = some L →
      (InverseColorEffect.apply w).drawingLayers.layers[i]?
          = some ⟨ColorEffects.inverseColors L.canvas⟩ ∧
      (InverseColorEffect.apply w).drawingLayers.selectedIndex
          = w.drawingLayers.selectedIndex ∧
      (InverseColorEffect.apply w).workingCanvas = w.workingCanvas := by
  constructor
  · intro h
    unfold DrawingLayers.selectedLayer at h
    cases hsel : w.drawingLayers.selectedIndex with
    | none => simp [InverseColorEffect.apply, hsel]
    | some i =>
      rw [hsel] at h
      simp only [Option.some_bind] at h
      cases hL : w.drawingLayers.layers[i]? with
      | none => simp [InverseColorEffect.apply, hsel, hL]
      | some layer =>
        rw [hL] at h
        cases h
  · intro i L hsel hL
    have happ : InverseColorEffect.apply w =
        { w with drawingLayers :=
            { w.drawingLayers with layers :=
                w.drawingLayers.layers.set i ⟨ColorEffects.inverseColors L.canvas⟩ } } := by
      simp [InverseColorEffect.apply, hsel, hL]
    have hlen : i < w.drawingLayers.layers.length := by
      rcases List.getElem?_eq_some_iff.1 hL with ⟨hh, _⟩
      exact hh
    rw [happ]
    exact ⟨List.getElem?_set_self hlen, rfl, rfl⟩

/-- Witness for C7: the effect leaves a workspace with no selection untouched,
and on a workspace whose first layer is selected it writes the inverted buffer
back into that layer. -/
theorem C7_witness :
    InverseColorEffect.apply wNone = wNone ∧
    ((InverseColorEffect.apply wSel).drawingLayers.layers[0]?
        = some ⟨ColorEffects.inverseColors img4x1⟩ ∧
     (InverseColorEffect.apply wSel).drawingLayers.selectedIndex
        = wSel.drawingLayers.selectedIndex ∧
     (InverseColorEffect.apply wSel).workingCanvas = wSel.workingCanvas) :=
  ⟨(C7_effect_apply_requires_selection wNone).1 rfl,
   (C7_effect_apply_requires_selection wSel).2 0 ⟨img4x1⟩ rfl rfl⟩

/-- Claim C8: `inverseColors` replaces, for every pixel of the buffer, each of
the R, G, B channels by 255 minus that channel and leaves the alpha channel
untouched, preserving the buffer's length; it is an involution: applying it
twice yields the original buffer bit for bit. -/
theorem C8_inverseColors_involution (img : ImageData) :
    ColorEffects.inverseColors (ColorEffects.inverseColors img) = img ∧
    (ColorEffects.inverseColors img).data.length = img.data.length ∧
    ∀ (k : Nat) (c c' : RGBA), img.data[k]? = some c →
      (ColorEffects.inverseColors img).data[k]? = some c' →
      c'.r.val = 255 - c.r.val ∧ c'.g.val = 255 - c.g.val ∧
      c'.b.val = 255 - c.b.val ∧ c'.a = c.a := by
  refine ⟨?_, by simp [ColorEffects.inverseColors], ?_⟩
  · unfold ColorEffects.inverseColors
    cases img with
    | mk w h data =>
      refine congrArg (ImageData.mk w h) ?_
      rw [List.map_map]
      exact List.map_id'' (fun c => invPixel_invPixel c) data
  · intro k c c' h h'
    simp only [ColorEffects.inverseColors, List.getElem?_map, h, Option.map_some'] at h'
    have hcc : invPixel c = c' := by
      injection h'
    subst hcc
    exact ⟨rfl, rfl, rfl, rfl⟩

/-- Witness for C8: double inversion restores the concrete 4×1 transparent
buffer, and its first pixel (0,0,0,0) inverts to (255,255,255,0) with the
alpha untouched. -/
theorem C8_witness :
    ColorEffects.inverseColors (ColorEffects.inverseColors img4x1) = img4x1 ∧
    ((⟨255, 255, 255, 0⟩ : RGBA).r.val = 255 - RGBA.transparent.r.val ∧
     (⟨255, 255, 255, 0⟩ : RGBA).g.val = 255 - RGBA.transparent.g.val ∧
     (⟨255, 255, 255, 0⟩ : RGBA).b.val = 255 - RGBA.transparent.b.val ∧
     (⟨255, 255, 255, 0⟩ : RGBA).a = RGBA.transparent.a) :=
  ⟨(C8_inverseColors_involution img4x1).1,
   (C8_inverseColors_involution img4x1).2.2 0 RGBA.transparent ⟨255, 255, 255, 0⟩
     (by decide) (by decide)⟩

/-- Claim C9: the ellipse tool maintains the invariant that a null
`firstPoint` implies a null `secondPoint`: it holds after construction, every
handler preserves it, and a completed pointer-up resets both points to
null. -/
theorem C9_ellipse_second_point_needs_first (w d : ImageData) (g : CanvasGeometry)
    (e : MouseEvent) (s : EllipseToolState) (hs : s.Consistent) :
    (EllipseTool.init w d).Consistent ∧
    (EllipseTool.onMouseDown g e s).Consistent ∧
    (EllipseTool.onMouseMove g e s).Consistent ∧
    (EllipseTool.onMouseUp g e s).Consistent ∧
    ∀ fp, s.firstPoint = some fp →
      (EllipseTool.onMouseUp g e s).firstPoint = none ∧
      (EllipseTool.onMouseUp g e s).secondPoint = none := by
  refine ⟨fun _ => rfl, ?_, ?_, ?_, ?_⟩
  · intro hnone
    simp [EllipseTool.onMouseDown] at hnone
  · cases hfp : s.firstPoint with
    | none =>
      have hmv : EllipseTool.onMouseMove g e s = s := by
        simp [EllipseTool.onMouseMove, hfp]
      rw [hmv]
      exact hs
    | some fp =>
      intro hnone
      have hfst : (EllipseTool.onMouseMove g e s).firstPoint = some fp := by
        simp [EllipseTool.onMouseMove, hfp]
      rw [hfst] at hnone
      cases hnone
  · cases hfp : s.firstPoint with
    | none =>
      have hup : EllipseTool.onMouseUp g e s = s := by
        simp [EllipseTool.onMouseUp, hfp]
      rw [hup]
      exact hs
    | some fp =>
      have hup : (EllipseTool.onMouseUp g e s).secondPoint = none := by
        simp [EllipseTool.onMouseUp, hfp]
      exact fun _ => hup
  · intro fp hfp
    constructor <;> simp [EllipseTool.onMouseUp, hfp]

/-- Witness for C9: the invariant instantiated for a concrete in-progress
state anchored at (1,1) on 4×1 buffers and a pointer-up at (0,0). -/
theorem C9_witness :
    (EllipseTool.init img4x1 img4x1).Consistent ∧
    (EllipseTool.onMouseDown g0 ⟨0, 0⟩
      (⟨some ⟨1, 1⟩, none, img4x1, img4x1⟩ : EllipseToolState)).Consistent ∧
    (EllipseTool.onMouseMove g0 ⟨0, 0⟩
      (⟨some ⟨1, 1⟩, none, img4x1, img4x1⟩ : EllipseToolState)).Consistent ∧
    (EllipseTool.onMouseUp g0 ⟨0, 0⟩
      (⟨some ⟨1, 1⟩, none, img4x1, img4x1⟩ : EllipseToolState)).Consistent ∧
    ((EllipseTool.onMouseUp g0 ⟨0, 0⟩
      (⟨some ⟨1, 1⟩, none, img4x1, img4x1⟩ : EllipseToolState)).firstPoint = none ∧
     (EllipseTool.onMouseUp g0 ⟨0, 0⟩
      (⟨some ⟨1, 1⟩, none, img4x1, img4x1⟩ : EllipseToolState)).secondPoint = none) := by
  have h := C9_ellipse_second_point_needs_first img4x1 img4x1 g0 ⟨0, 0⟩
    ⟨some ⟨1, 1⟩, none, img4x1, img4x1⟩ (fun hh => nomatch hh)
  exact ⟨h.1, h.2.1, h.2.2.1, h.2.2.2.1, h.2.2.2.2 ⟨1, 1⟩ rfl⟩

/-- Claim C10: on a workspace with a selected layer, the inverse-color effect
mutates only that layer: the preview (working) surface, the selection, the
number of layers, and every other layer are unchanged by the call. -/
theorem C10_inverse_effect_frame (w : ImageWorkspace) (i : Nat)
    (h : w.drawingLayers.selectedIndex = some i) :
    (InverseColorEffect.apply w).workingCanvas = w.workingCanvas ∧
    (InverseColorEffect.apply w).drawingLayers.selectedIndex
        = w.drawingLayers.selectedIndex ∧
    (InverseColorEffect.apply w).drawingLayers.layers.length
        = w.drawingLayers.layers.length ∧
    ∀ j, j ≠ i → (InverseColorEffect.apply w).drawingLayers.layers[j]?
        = w.drawingLayers.layers[j]? := by
  cases hL : w.drawingLayers.layers[i]? with
  | none => simp [InverseColorEffect.apply, h, hL]
  | some layer =>
    have happ : InverseColorEffect.apply w =
        { w with drawingLayers :=
            { w.drawingLayers with layers :=
                w.drawingLayers.layers.set i ⟨ColorEffects.inverseColors layer.canvas⟩ } } := by
      simp [InverseColorEffect.apply, h, hL]
    rw [happ]
    refine ⟨rfl, rfl, by simp, ?_⟩
    intro j hj
    exact List.getElem?_set_ne (Ne.symm hj)

/-- Witness for C10: applying the effect to the two-layer workspace with layer
0 selected leaves the preview surface, the selection, the layer count and
layer 1 unchanged. -/
theorem C10_witness :
    (InverseColorEffect.apply wSel).workingCanvas = wSel.workingCanvas ∧
    (InverseColorEffect.apply wSel).drawingLayers.selectedIndex
        = wSel.drawingLayers.selectedIndex ∧
    (InverseColorEffect.apply wSel).drawingLayers.layers.length
        = wSel.drawingLayers.layers.length ∧
    (InverseColorEffect.apply wSel).drawingLayers.layers[1]?
        = wSel.drawingLayers.layers[1]? := by
  have h := C10_inverse_effect_frame wSel 0 rfl
  exact ⟨h.1, h.2.1, h.2.2.1, h.2.2.2 1 (by decide)⟩

end RubEns
